import Mathlib

/-!
Verification of the environment/node aggregation and filtering engine of
`web/environments.go` (the trento web layer).

The Go source is shallowly embedded:

* `consulApi.Node` becomes the structure `Node`; its `Meta` map becomes an
  association list `List (String × String)`.
* The consul client (`consul.Client`) becomes a record of behaviours
  `ConsulClient`: each remote call is a field returning either a value or an
  error string (`Except String _`), and the KV `Get` returns the Go pair
  `(*KVPair, error)` as `Option KVPair × Option String`.
* `errors.Wrap` from `github.com/pkg/errors` is modelled by `errorsWrap`;
  like the library, it returns `none` (Go `nil`) when the wrapped error is
  `nil`.
* `consulApi.HealthChecks.AggregatedStatus` (from the vendored consul api
  library) is modelled by `aggregatedStatus`; on a `nil`/empty check list it
  returns the empty string.
* `json.Unmarshal` into `[]string` (resp. into `check.Controls`) is an
  external library call; it is passed in as an explicit decoder argument
  `unmarshal : String → Except String (List String)`
  (resp. `String → Option Controls`).
* A map access `environments[dc]` to a missing key yields Go's `nil`
  pointer, and appending to `.Nodes` through it panics; the loader therefore
  returns a `LoadOutcome` with a distinguished `panic` case.
-/

deriving instance DecidableEq for Except

namespace Trento

/-- `TRENTO_PREFIX` constant of the source: the reserved metadata namespace. -/
def TRENTO_PREFIX : String := "trento-"

/-- `TRENTO_FILTERS_PREFIX` constant of the source: KV path of the filter
vocabularies. -/
def TRENTO_FILTERS_PREFIX : String := "trento/filters/"

/-- `TRENTO_FILTERS()` of the source: the fixed, closed set of filter names. -/
def TRENTO_FILTERS : List String := ["sap-environments", "sap-landscapes", "sap-systems"]

/-- Go `strings.HasPrefix(s, pre)`, embedded as a character-list test (the
prefixes used by the source are ASCII, where Go's byte-wise test coincides
with this one); `String.startsWith` of the Lean core is avoided because its
byte-position loop is not kernel-reducible. -/
def hasPrefixGo (s pre : String) : Bool := pre.data.isPrefixOf s.data

/-- A raw catalog node record (`consulApi.Node`), restricted to the fields the
source reads: its `Node` field (the name — renamed `node` here because a Lean
field cannot shadow its structure's name), `Address`, `Datacenter` and `Meta`.
The Go `map[string]string` metadata is embedded as an association list. -/
structure Node where
  node : String
  Address : String
  Datacenter : String
  Meta : List (String × String)
deriving DecidableEq

/-- `Environment` of the source. -/
structure Environment where
  Name : String
  Nodes : List Node
deriving DecidableEq

/-- `EnvironmentList` of the source (`map[string]*Environment`), embedded as an
association list with unique keys. -/
abbrev EnvironmentList := List (String × Environment)

/-- A consul health check, restricted to the two fields read by
`HealthChecks.AggregatedStatus`. -/
structure HealthCheck where
  CheckID : String
  Status : String
deriving DecidableEq

/-- A consul KV pair, restricted to its `Value` field (raw bytes as a string). -/
structure KVPair where
  Value : String
deriving DecidableEq

/-- The behaviour of the consul client seen through the calls the source
makes: `Catalog().Datacenters()`, `Catalog().Nodes(query)` (keyed by the
filter expression of the query options), `Health().Node(name)`, and
`KV().Get(key)`.  An `Except.error`/`some` error models a non-nil Go error;
for `kvGet` the first component models the possibly-nil `*KVPair`. -/
structure ConsulClient where
  datacenters : Except String (List String)
  catalogNodes : String → Except String (List Node)
  healthNode : String → Except String (List HealthCheck)
  kvGet : String → Option KVPair × Option String

/-- `errors.Wrap` of `github.com/pkg/errors`: `Wrap(nil, msg)` is `nil`,
otherwise the wrapped error's message is `msg ++ ": " ++ err`. -/
def errorsWrap (err : Option String) (msg : String) : Option String :=
  match err with
  | none => none
  | some e => some (msg ++ ": " ++ e)

/-- Loop body accumulator of `consulApi.HealthChecks.AggregatedStatus` (the
four booleans `passing/warning/critical/maintenance`); an unrecognized check
status returns `""` immediately, as in the library. -/
def aggregatedStatusAux : List HealthCheck → Bool → Bool → Bool → Bool → String
  | [], passing, warning, critical, maintenance =>
      if maintenance then "maintenance"
      else if critical then "critical"
      else if warning then "warning"
      else if passing then "passing"
      else ""
  | ch :: rest, passing, warning, critical, maintenance =>
      if (ch.CheckID == "_node_maintenance")
          || hasPrefixGo ch.CheckID "_service_maintenance:" then
        aggregatedStatusAux rest passing warning critical true
      else if ch.Status == "passing" then
        aggregatedStatusAux rest true warning critical maintenance
      else if ch.Status == "warning" then
        aggregatedStatusAux rest passing true critical maintenance
      else if ch.Status == "critical" then
        aggregatedStatusAux rest passing warning true maintenance
      else ""

/-- `consulApi.HealthChecks.AggregatedStatus` of the vendored consul api
library; on Go `nil` checks (the error case of `Health().Node`) it runs on the
empty list and returns `""`. -/
def aggregatedStatus (checks : List HealthCheck) : String :=
  aggregatedStatusAux checks false false false false

/-- `Node.Name()` of the source. -/
def Node.Name (n : Node) : String := n.node

/-- `Node.Health()` of the source: queries `Health().Node(n.Name(), nil)`,
discards the error (`checks, _, _ := ...`); on error the checks are `nil`
and the aggregated status of `nil` is `""`. -/
def Node.Health (n : Node) (c : ConsulClient) : String :=
  match c.healthNode n.Name with
  | .error _ => aggregatedStatus []
  | .ok checks => aggregatedStatus checks

/-- `Node.TrentoMeta()` of the source: a fresh mapping keeping exactly the
metadata pairs whose key starts with `TRENTO_PREFIX`. -/
def Node.TrentoMeta (n : Node) : List (String × String) :=
  n.Meta.filter (fun kv => hasPrefixGo kv.1 TRENTO_PREFIX)

/-- The decoded `check.Controls` report of `bench-common`, kept abstract up to
the two identifying fields; its content is produced by the decoder argument of
`Node.Checks`. -/
structure Controls where
  ID : String
  Version : String
deriving DecidableEq

/-- An HTTP response: `Body` is the result of `io.ReadAll`, `none` modelling a
read failure. -/
structure HttpResp where
  Body : Option String

/-- The network seen by `http.Get`: `none` models a transport error. -/
structure HttpWorld where
  get : String → Option HttpResp

/-- The URL `fmt.Sprintf("http://%s:%d", n.Address, 8700)` of `Node.Checks`. -/
def checkURL (n : Node) : String := "http://" ++ n.Address ++ ":8700"

/-- `Node.Checks()` of the source: `http.Get` on the node address at port
8700, `io.ReadAll`, then `json.Unmarshal` into `check.Controls`; every failure
returns `nil` (here `none`) after logging. The unmarshaller is the external
json library, passed explicitly. -/
def Node.Checks (n : Node) (w : HttpWorld)
    (unmarshalControls : String → Option Controls) : Option Controls :=
  match w.get (checkURL n) with
  | none => none
  | some resp =>
    match resp.Body with
    | none => none
    | some body => unmarshalControls body

/-- The inner loop of `CreateFilterMetaQuery`: builds the per-tag
sub-expression for `key` over `values`. The Go loop appends `" or "` after a
clause whenever the current value differs from the *last element of the list*
(`values[len(values)-1] != value`). -/
def tagSubExpr (key : String) (values : List String) : String :=
  values.foldl
    (fun filter value =>
      let f := filter ++ "Meta[\"" ++ key ++ "\"] == \"" ++ value ++ "\""
      if values.getLast? == some value then f else f ++ " or ")
    ""

/-- `CreateFilterMetaQuery` of the source: keeps the tags whose name starts
with `TRENTO_PREFIX`, builds each per-tag sub-expression, and joins them with
`" and "`. The Go map iteration order is embedded as the association-list
order of `query`. -/
def CreateFilterMetaQuery (query : List (String × List String)) : String :=
  let filters : List String :=
    if query.length ≠ 0 then
      query.foldl
        (fun fs kv =>
          if hasPrefixGo kv.1 TRENTO_PREFIX then fs ++ [tagSubExpr kv.1 kv.2] else fs)
        []
    else []
  String.intercalate " and " filters

/-- `contains` of the source. -/
def contains : List String → String → Bool
  | [], _ => false
  | v :: rest, str => if v = str then true else contains rest str

/-- The health gate of `loadEnvironments`:
`len(health_filter) == 0 || contains(health_filter, populated_node.Health())`. -/
def healthGate (c : ConsulClient) (health_filter : List String) (n : Node) : Bool :=
  (health_filter.length == 0) || contains health_filter (n.Health c)

/-- Go map lookup `environments[dc]` on the association list;
`none` is Go's `nil` pointer for a missing key. -/
def lookupEnv : EnvironmentList → String → Option Environment
  | [], _ => none
  | (k, e) :: rest, dc => if k = dc then some e else lookupEnv rest dc

/-- Go map assignment `environments[dc] = e` (replace or insert). -/
def envSet : EnvironmentList → String → Environment → EnvironmentList
  | [], dc, e => [(dc, e)]
  | (k, e0) :: rest, dc, e =>
      if k = dc then (k, e) :: rest else (k, e0) :: envSet rest dc e

/-- The seeding loop of `loadEnvironments`:
`for _, dc := range dcs { environments[dc] = &Environment{Name: dc} }`. -/
def seedEnvs (dcs : List String) : EnvironmentList :=
  dcs.foldl (fun envs dc => envSet envs dc ⟨dc, []⟩) []

/-- `environments[dc].Nodes = append(environments[dc].Nodes, n)`: appends `n`
to the environment at key `dc`; `none` models the nil-pointer dereference
panic when `dc` is not a key of the map. -/
def envAppendNode : EnvironmentList → String → Node → Option EnvironmentList
  | [], _, _ => none
  | (k, e) :: rest, dc, n =>
      if k = dc then some ((k, { e with Nodes := e.Nodes ++ [n] }) :: rest)
      else (envAppendNode rest dc n).map (fun rest2 => (k, e) :: rest2)

/-- The node loop of `loadEnvironments`: for each catalog node, when the
health gate passes, append it to the environment of its datacenter; a missing
environment entry is the panic (`none`). -/
def attachNodes (c : ConsulClient) (hf : List String) :
    EnvironmentList → List Node → Option EnvironmentList
  | envs, [] => some envs
  | envs, n :: rest =>
      if healthGate c hf n then
        match envAppendNode envs n.Datacenter n with
        | none => none
        | some envs2 => attachNodes c hf envs2 rest
      else attachNodes c hf envs rest

/-- The outcome of `loadEnvironments`: a returned `EnvironmentList`, a
returned (wrapped) error, or a runtime panic from a nil `*Environment`
dereference. -/
inductive LoadOutcome where
  | ok (envs : EnvironmentList)
  | err (msg : String)
  | panic
deriving DecidableEq

/-- `loadEnvironments` of the source. Both backend errors are non-nil when
taken, so `errors.Wrap` yields `msg ++ ": " ++ e`. -/
def loadEnvironments (c : ConsulClient) (query_filter : String)
    (health_filter : List String) : LoadOutcome :=
  match c.datacenters with
  | .error e => .err ("could not query Consul for datacenters: " ++ e)
  | .ok dcs =>
    match c.catalogNodes query_filter with
    | .error e => .err ("could not query Consul for nodes: " ++ e)
    | .ok nodes =>
      match attachNodes c health_filter (seedEnvs dcs) nodes with
      | none => .panic
      | some envs => .ok envs

/-- `loadFilter` of the source: `KV().Get`, the `filters == nil` check wrapping
a possibly-nil error with `errorsWrap`, then `json.Unmarshal` into `[]string`
(the external decoder `unmarshal`). The first component of the result is Go's
possibly-nil `[]string` return value. -/
def loadFilter (c : ConsulClient) (unmarshal : String → Except String (List String))
    (filter : String) : Option (List String) × Option String :=
  match c.kvGet filter with
  | (none, err) => (none, errorsWrap err "could not query Consul for filters on the KV storage")
  | (some p, _) =>
    match unmarshal p.Value with
    | .error e => (none, errorsWrap (some e) "error decoding the filter data")
    | .ok vs => (some vs, none)

/-- The loop of `loadFilters`, accumulating `filter_data`. -/
def loadFiltersAux (c : ConsulClient) (unmarshal : String → Except String (List String)) :
    List String → List (String × Option (List String)) →
    Except String (List (String × Option (List String)))
  | [], acc => .ok acc
  | f :: rest, acc =>
    match loadFilter c unmarshal (TRENTO_FILTERS_PREFIX ++ f) with
    | (vs, none) => loadFiltersAux c unmarshal rest (acc ++ [(f, vs)])
    | (_, some e) => .error e

/-- `loadFilters` of the source: loads each of the fixed filter names from the
KV store path and collects them into `filter_data`, aborting on the first
non-nil error. -/
def loadFilters (c : ConsulClient) (unmarshal : String → Except String (List String)) :
    Except String (List (String × Option (List String))) :=
  loadFiltersAux c unmarshal TRENTO_FILTERS []

/-! ### Concrete fixtures used by the witness and counterexample theorems -/

/-- A catalog node in datacenter `dc1` that reports a passing health check. -/
def nA : Node := ⟨"A", "192.0.2.1", "dc1", [("trento-env", "demo"), ("other", "x")]⟩

/-- A catalog node in datacenter `dc1` that reports a critical health check. -/
def nB : Node := ⟨"B", "192.0.2.2", "dc1", []⟩

/-- A catalog node that reports datacenter `dc2`. -/
def nC2 : Node := ⟨"C", "192.0.2.3", "dc2", []⟩

/-- A backend with datacenters `dc1`, `dc2`, nodes `nA`, `nB`, and per-node
health: passing for `A`, critical otherwise. -/
def clientA : ConsulClient :=
  ⟨.ok ["dc1", "dc2"],
   fun _ => .ok [nA, nB],
   fun name => if name = "A" then .ok [⟨"serf", "passing"⟩] else .ok [⟨"serf", "critical"⟩],
   fun _ => (none, none)⟩

/-- A backend whose datacenter enumeration fails. -/
def clientErrDC : ConsulClient :=
  ⟨.error "boom", fun _ => .ok [], fun _ => .ok [], fun _ => (none, none)⟩

/-- A backend whose health queries all fail. -/
def clientHFail : ConsulClient :=
  ⟨.ok [], fun _ => .ok [], fun _ => .error "down", fun _ => (none, none)⟩

/-- A backend that enumerates only `dc1` but returns the `dc2` node `nC2`. -/
def clientBadDC : ConsulClient :=
  ⟨.ok ["dc1"], fun _ => .ok [nC2], fun _ => .ok [], fun _ => (none, none)⟩

/-- A KV store where the `sap-environments` vocabulary key is absent (the Go
`Get` returns a nil pair and a nil error) while the other keys hold `"[]"`. -/
def clientKVAbsent : ConsulClient :=
  ⟨.ok [], fun _ => .ok [], fun _ => .ok [],
   fun k => if k = "trento/filters/sap-environments" then (none, none)
            else (some ⟨"[]"⟩, none)⟩

/-- A json decoder for `[]string` accepting exactly the payload `"[]"`. -/
def unmarshalDemo : String → Except String (List String) :=
  fun s => if s = "[]" then .ok [] else .error "invalid character"

/-- A network where every request fails. -/
def wNone : HttpWorld := ⟨fun _ => none⟩

/-! ### Helper lemmas about the association-list environment map -/

theorem lookupEnv_envSet (envs : EnvironmentList) (dc : String) (e : Environment)
    (dc' : String) :
    lookupEnv (envSet envs dc e) dc' = if dc = dc' then some e else lookupEnv envs dc' := by
  induction envs with
  | nil =>
      by_cases h : dc = dc' <;> simp [envSet, lookupEnv, h]
  | cons kv rest ih =>
      obtain ⟨k, e0⟩ := kv
      simp only [envSet]
      by_cases hk : k = dc
      · rw [if_pos hk]
        simp only [lookupEnv]
        by_cases h : dc = dc'
        · rw [if_pos (hk.trans h), if_pos h]
        · have hk' : ¬ k = dc' := fun hh => h (hk.symm.trans hh)
          rw [if_neg hk', if_neg h, if_neg hk']
      · rw [if_neg hk]
        simp only [lookupEnv]
        by_cases h : k = dc'
        · have hd : ¬ dc = dc' := fun hh => hk (h.trans hh.symm)
          rw [if_pos h, if_neg hd, if_pos h]
        · rw [if_neg h, ih]
          by_cases hdd : dc = dc'
          · rw [if_pos hdd, if_pos hdd]
          · rw [if_neg hdd, if_neg hdd, if_neg h]

theorem lookupEnv_seedEnvs (dcs : List String) (dc : String) :
    lookupEnv (seedEnvs dcs) dc = if dc ∈ dcs then some ⟨dc, []⟩ else none := by
  have main : ∀ (l : List String) (envs : EnvironmentList),
      lookupEnv (l.foldl (fun es d => envSet es d ⟨d, []⟩) envs) dc =
        if dc ∈ l then some ⟨dc, []⟩ else lookupEnv envs dc := by
    intro l
    induction l with
    | nil => intro envs; simp
    | cons d rest ih =>
        intro envs
        simp only [List.foldl_cons, ih, lookupEnv_envSet]
        by_cases hr : dc ∈ rest
        · rw [if_pos hr, if_pos (List.mem_cons_of_mem d hr)]
        · rw [if_neg hr]
          by_cases hd : d = dc
          · subst hd
            rw [if_pos rfl, if_pos (List.mem_cons_self d rest)]
          · have hmem : dc ∉ d :: rest := by
              intro hmm
              rcases List.mem_cons.mp hmm with h1 | h2
              · exact hd h1.symm
              · exact hr h2
            rw [if_neg hd, if_neg hmem]
  have h := main dcs []
  simpa [seedEnvs, lookupEnv] using h

theorem envAppendNode_lookup (envs : EnvironmentList) (dc : String) (n : Node)
    (envs2 : EnvironmentList) (h : envAppendNode envs dc n = some envs2) (dc' : String) :
    lookupEnv envs2 dc' =
      if dc' = dc then
        (lookupEnv envs dc').map (fun e => ⟨e.Name, e.Nodes ++ [n]⟩)
      else lookupEnv envs dc' := by
  induction envs generalizing envs2 with
  | nil => simp [envAppendNode] at h
  | cons kv rest ih =>
      obtain ⟨k, e⟩ := kv
      simp only [envAppendNode] at h
      by_cases hk : k = dc
      · rw [if_pos hk] at h
        injection h with h
        subst h
        simp only [lookupEnv]
        by_cases h' : k = dc'
        · rw [if_pos h', if_pos (h'.symm.trans hk), if_pos h']
          rfl
        · have hdd : ¬ dc' = dc := fun hh => h' (hk.trans hh.symm)
          rw [if_neg h', if_neg hdd, if_neg h']
      · rw [if_neg hk] at h
        rw [Option.map_eq_some'] at h
        obtain ⟨rest2, hrest2, h⟩ := h
        subst h
        simp only [lookupEnv]
        by_cases h' : k = dc'
        · have hdd : ¬ dc' = dc := fun hh => hk (h'.trans hh)
          rw [if_pos h', if_neg hdd, if_pos h']
        · rw [if_neg h', if_neg h', ih rest2 hrest2]

theorem envAppendNode_isSome (envs : EnvironmentList) (dc : String) (n : Node) :
    (envAppendNode envs dc n).isSome = (lookupEnv envs dc).isSome := by
  induction envs with
  | nil => simp [envAppendNode, lookupEnv]
  | cons kv rest ih =>
      obtain ⟨k, e⟩ := kv
      by_cases hk : k = dc <;> simp [envAppendNode, lookupEnv, hk, ih]

theorem envAppendNode_lookup_isSome (envs : EnvironmentList) (dc : String) (n : Node)
    (envs2 : EnvironmentList) (h : envAppendNode envs dc n = some envs2) (dc' : String) :
    (lookupEnv envs2 dc').isSome = (lookupEnv envs dc').isSome := by
  rw [envAppendNode_lookup envs dc n envs2 h dc']
  by_cases h' : dc' = dc <;> simp [h']

theorem contains_eq_mem (s : List String) (x : String) :
    contains s x = decide (x ∈ s) := by
  induction s with
  | nil => simp [contains]
  | cons v rest ih =>
      by_cases h : v = x
      · simp [contains, h]
      · have h2 : ¬ x = v := fun hh => h hh.symm
        simp [contains, h, h2, ih]

theorem healthGate_eq (c : ConsulClient) (hf : List String) (n : Node) :
    healthGate c hf n = (decide (hf = []) || decide (n.Health c ∈ hf)) := by
  cases hf with
  | nil => simp [healthGate]
  | cons v rest => simp [healthGate, contains_eq_mem]

theorem attachNodes_lookup (c : ConsulClient) (hf : List String) (ns : List Node)
    (envs envs2 : EnvironmentList) (h : attachNodes c hf envs ns = some envs2)
    (dc : String) :
    lookupEnv envs2 dc =
      (lookupEnv envs dc).map (fun e =>
        ⟨e.Name, e.Nodes ++ ns.filter (fun n => n.Datacenter == dc && healthGate c hf n)⟩) := by
  induction ns generalizing envs envs2 with
  | nil =>
      simp only [attachNodes, Option.some.injEq] at h
      subst h
      cases hl : lookupEnv envs dc <;> simp
  | cons n rest ih =>
      simp only [attachNodes] at h
      by_cases hg : healthGate c hf n = true
      · rw [if_pos hg] at h
        cases ha : envAppendNode envs n.Datacenter n with
        | none => rw [ha] at h; cases h
        | some envsMid =>
            rw [ha] at h
            have hmid := envAppendNode_lookup envs n.Datacenter n envsMid ha dc
            have hrest := ih envsMid envs2 h
            rw [hrest, hmid]
            by_cases hdc : dc = n.Datacenter
            · have hb : (n.Datacenter == dc) = true := by
                rw [hdc]
                simp
              rw [if_pos hdc]
              simp only [List.filter_cons, hb, hg, Bool.and_self, if_pos]
              cases hl : lookupEnv envs dc <;>
                simp [List.append_assoc]
            · have hb : (n.Datacenter == dc) = false := by
                rw [beq_eq_false_iff_ne]
                exact fun hh => hdc hh.symm
              rw [if_neg hdc]
              simp only [List.filter_cons, hb, Bool.false_and]
              cases hl : lookupEnv envs dc <;> simp
      · rw [if_neg hg] at h
        have hb : (n.Datacenter == dc && healthGate c hf n) = false := by
          rw [Bool.and_eq_false_iff]
          right
          exact Bool.not_eq_true _ ▸ (by simpa using hg)
        rw [ih envs envs2 h]
        simp [List.filter_cons, hb]

theorem attachNodes_isSome (c : ConsulClient) (hf : List String) (ns : List Node)
    (envs : EnvironmentList) :
    (attachNodes c hf envs ns).isSome = true ↔
      ∀ n ∈ ns, healthGate c hf n = true → (lookupEnv envs n.Datacenter).isSome = true := by
  induction ns generalizing envs with
  | nil => simp [attachNodes]
  | cons n rest ih =>
      simp only [attachNodes]
      by_cases hg : healthGate c hf n = true
      · rw [if_pos hg]
        cases ha : envAppendNode envs n.Datacenter n with
        | none =>
            have hnone : (lookupEnv envs n.Datacenter).isSome = false := by
              have h1 := envAppendNode_isSome envs n.Datacenter n
              rw [ha] at h1
              exact h1.symm
            constructor
            · intro hfalse; cases hfalse
            · intro hall
              have h2 := hall n (List.mem_cons_self n rest) hg
              rw [hnone] at h2
              cases h2
        | some envsMid =>
            constructor
            · intro hsome
              intro m hm hgm
              rcases List.mem_cons.mp hm with h1 | h2
              · subst h1
                have h1 := envAppendNode_isSome envs m.Datacenter m
                rw [ha] at h1
                exact h1.symm
              · have h3 := (ih envsMid).mp hsome m h2 hgm
                rw [envAppendNode_lookup_isSome envs n.Datacenter n envsMid ha] at h3
                exact h3
            · intro hall
              apply (ih envsMid).mpr
              intro m hm hgm
              rw [envAppendNode_lookup_isSome envs n.Datacenter n envsMid ha]
              exact hall m (List.mem_cons_of_mem n hm) hgm
      · rw [if_neg hg]
        constructor
        · intro hsome m hm hgm
          rcases List.mem_cons.mp hm with h1 | h2
          · subst h1; exact absurd hgm hg
          · exact (ih envs).mp hsome m h2 hgm
        · intro hall
          apply (ih envs).mpr
          intro m hm hgm
          exact hall m (List.mem_cons_of_mem n hm) hgm

/-! ### Helper lemmas about `loadEnvironments` -/

theorem loadEnvironments_ok_attach (c : ConsulClient) (qf : String) (hf : List String)
    (dcs : List String) (ns : List Node) (envs : EnvironmentList)
    (h1 : c.datacenters = .ok dcs) (h2 : c.catalogNodes qf = .ok ns)
    (h3 : loadEnvironments c qf hf = .ok envs) :
    attachNodes c hf (seedEnvs dcs) ns = some envs := by
  simp only [loadEnvironments, h1, h2] at h3
  cases ha : attachNodes c hf (seedEnvs dcs) ns with
  | none => simp [ha] at h3
  | some envs2 =>
      simp only [ha] at h3
      injection h3 with h3
      rw [h3]

theorem loadEnvironments_ok_lookup (c : ConsulClient) (qf : String) (hf : List String)
    (dcs : List String) (ns : List Node) (envs : EnvironmentList)
    (h1 : c.datacenters = .ok dcs) (h2 : c.catalogNodes qf = .ok ns)
    (h3 : loadEnvironments c qf hf = .ok envs) (dc : String) :
    lookupEnv envs dc =
      if dc ∈ dcs then
        some ⟨dc, ns.filter (fun n => n.Datacenter == dc && healthGate c hf n)⟩
      else none := by
  have ha := loadEnvironments_ok_attach c qf hf dcs ns envs h1 h2 h3
  rw [attachNodes_lookup c hf ns (seedEnvs dcs) envs ha dc, lookupEnv_seedEnvs]
  by_cases hm : dc ∈ dcs
  · rw [if_pos hm, if_pos hm]
    simp
  · rw [if_neg hm, if_neg hm]
    rfl

/-! ### Claim theorems -/

/-- Claim C1: for every filter expression and health-status constraint list,
whenever the topology load succeeds, the node list of each Environment is
exactly the returned catalog nodes whose datacenter matches that Environment
and that pass the health gate — with a non-empty constraint list a node is
included only if its aggregated health status is a member of the list, with an
empty list every node is included — and the included nodes keep the catalog
enumeration order (`List.filter` preserves the order of `ns`). -/
theorem loadEnvironments_health_gate_exact (c : ConsulClient) (qf : String)
    (hf : List String) (dcs : List String) (ns : List Node)
    (envs : EnvironmentList) (dc : String) (e : Environment)
    (h1 : c.datacenters = .ok dcs) (h2 : c.catalogNodes qf = .ok ns)
    (h3 : loadEnvironments c qf hf = .ok envs) (h4 : lookupEnv envs dc = some e) :
    e.Nodes = ns.filter (fun n => n.Datacenter == dc &&
      (decide (hf = []) || decide (n.Health c ∈ hf))) := by
  have hl := loadEnvironments_ok_lookup c qf hf dcs ns envs h1 h2 h3 dc
  rw [h4] at hl
  by_cases hm : dc ∈ dcs
  · rw [if_pos hm] at hl
    injection hl with hl
    have hfun : (fun n => n.Datacenter == dc && healthGate c hf n)
        = (fun n => n.Datacenter == dc && (decide (hf = []) || decide (n.Health c ∈ hf))) := by
      funext n
      rw [healthGate_eq]
    rw [hl, ← hfun]
  · rw [if_neg hm] at hl
    cases hl

/-- Claim C1 witness: with backend `clientA` and health filter `["passing"]`,
the load yields environment `dc1` holding exactly the gate-passing nodes. -/
theorem loadEnvironments_health_gate_exact_witness :
    (⟨"dc1", [nA]⟩ : Environment).Nodes =
      [nA, nB].filter (fun n => n.Datacenter == "dc1" &&
        (decide ((["passing"] : List String) = []) || decide (n.Health clientA ∈ ["passing"]))) :=
  loadEnvironments_health_gate_exact clientA "q" ["passing"] ["dc1", "dc2"] [nA, nB]
    [("dc1", ⟨"dc1", [nA]⟩), ("dc2", ⟨"dc2", []⟩)] "dc1" ⟨"dc1", [nA]⟩
    rfl rfl (by decide) (by decide)

/-- Claim C2: whenever the topology load succeeds, it contains exactly one
Environment per reported datacenter — an environment entry exists for a name
iff it is a reported datacenter — and a datacenter with zero matching nodes
still appears as an Environment with an empty node list. -/
theorem loadEnvironments_seeds_every_datacenter (c : ConsulClient) (qf : String)
    (hf : List String) (dcs : List String) (ns : List Node) (envs : EnvironmentList)
    (h1 : c.datacenters = .ok dcs) (h2 : c.catalogNodes qf = .ok ns)
    (h3 : loadEnvironments c qf hf = .ok envs) :
    (∀ dc, (lookupEnv envs dc).isSome = true ↔ dc ∈ dcs) ∧
    (∀ dc, dc ∈ dcs →
      ns.filter (fun n => n.Datacenter == dc && healthGate c hf n) = [] →
      lookupEnv envs dc = some ⟨dc, []⟩) := by
  have hl := loadEnvironments_ok_lookup c qf hf dcs ns envs h1 h2 h3
  constructor
  · intro dc
    rw [hl dc]
    by_cases hm : dc ∈ dcs <;> simp [hm]
  · intro dc hm hfilter
    rw [hl dc, if_pos hm, hfilter]

/-- Claim C2 witness: with backend `clientA` (datacenters `dc1`, `dc2`) and
health filter `["passing"]`, the environment `dc2` — which no returned node
matches — still appears with an empty node list. -/
theorem loadEnvironments_seeds_every_datacenter_witness :
    lookupEnv [("dc1", ⟨"dc1", [nA]⟩), ("dc2", ⟨"dc2", []⟩)] "dc2" = some ⟨"dc2", []⟩ := by
  have h := loadEnvironments_seeds_every_datacenter clientA "q" ["passing"]
    ["dc1", "dc2"] [nA, nB] [("dc1", ⟨"dc1", [nA]⟩), ("dc2", ⟨"dc2", []⟩)]
    rfl rfl (by decide)
  exact h.2 "dc2" (by decide) (by decide)

/-- Claim C5: the built filter expression is the `" and "`-join of exactly the
per-tag sub-expressions of the tags whose names begin with the reserved
prefix, in the enumeration order of the mapping; non-reserved tags contribute
nothing, and an empty mapping or one with only non-reserved names yields the
empty string. -/
theorem createFilterMetaQuery_join_structure (query : List (String × List String)) :
    CreateFilterMetaQuery query =
      String.intercalate " and "
        ((query.filter (fun kv => hasPrefixGo kv.1 TRENTO_PREFIX)).map
          (fun kv => tagSubExpr kv.1 kv.2)) ∧
    (query.filter (fun kv => hasPrefixGo kv.1 TRENTO_PREFIX) = [] →
      CreateFilterMetaQuery query = "") := by
  have hfold : ∀ (l : List (String × List String)) (acc : List String),
      l.foldl
        (fun fs kv =>
          if hasPrefixGo kv.1 TRENTO_PREFIX then fs ++ [tagSubExpr kv.1 kv.2] else fs)
        acc
        = acc ++ (l.filter (fun kv => hasPrefixGo kv.1 TRENTO_PREFIX)).map
            (fun kv => tagSubExpr kv.1 kv.2) := by
    intro l
    induction l with
    | nil => intro acc; simp
    | cons kv rest ih =>
        intro acc
        cases hp : hasPrefixGo kv.1 TRENTO_PREFIX <;>
          simp [List.filter_cons, hp, ih, List.append_assoc]
  have hmain : CreateFilterMetaQuery query =
      String.intercalate " and "
        ((query.filter (fun kv => hasPrefixGo kv.1 TRENTO_PREFIX)).map
          (fun kv => tagSubExpr kv.1 kv.2)) := by
    cases query with
    | nil => rfl
    | cons kv rest =>
        simp only [CreateFilterMetaQuery]
        rw [if_pos (by simp), hfold, List.nil_append]
  refine ⟨hmain, ?_⟩
  intro hempty
  rw [hmain, hempty]
  rfl

/-- Claim C5 witness: a mapping with only the non-reserved tag `foo` yields
the empty expression. -/
theorem createFilterMetaQuery_join_structure_witness :
    CreateFilterMetaQuery [("foo", ["x"])] = "" :=
  (createFilterMetaQuery_join_structure [("foo", ["x"])]).2 (by decide)

/-- Claim C6: if the datacenter enumeration fails, or the node enumeration
fails, the topology load returns no EnvironmentList but a single error wrapped
with a context message identifying the failed backend query. -/
theorem loadEnvironments_backend_failure_fatal (c : ConsulClient) (qf : String)
    (hf : List String) :
    (∀ e, c.datacenters = .error e →
        loadEnvironments c qf hf =
          .err ("could not query Consul for datacenters: " ++ e)) ∧
    (∀ dcs e, c.datacenters = .ok dcs → c.catalogNodes qf = .error e →
        loadEnvironments c qf hf =
          .err ("could not query Consul for nodes: " ++ e)) := by
  constructor
  · intro e he
    simp [loadEnvironments, he]
  · intro dcs e hok herr
    simp [loadEnvironments, hok, herr]

/-- Claim C6 witness: a failing datacenter enumeration surfaces its wrapped
error. -/
theorem loadEnvironments_backend_failure_fatal_witness :
    loadEnvironments clientErrDC "q" [] =
      .err ("could not query Consul for datacenters: " ++ "boom") :=
  (loadEnvironments_backend_failure_fatal clientErrDC "q" []).1 "boom" rfl

/-- Claim C7: when the health query for a node fails, `Node.Health` neither
propagates an error nor crashes: it returns the empty aggregate `""`, which is
distinct from every real status, and a topology load whose two catalog calls
succeeded never aborts with an error whatever the health behaviour. -/
theorem nodeHealth_failure_recovered :
    (∀ (c : ConsulClient) (n : Node) (e : String),
        c.healthNode n.Name = .error e →
        n.Health c = "" ∧ "" ≠ "passing" ∧ "" ≠ "warning" ∧
          "" ≠ "critical" ∧ "" ≠ "maintenance") ∧
    (∀ (c : ConsulClient) (qf : String) (hf : List String) (dcs : List String)
        (ns : List Node),
        c.datacenters = .ok dcs → c.catalogNodes qf = .ok ns →
        ∀ msg, loadEnvironments c qf hf ≠ .err msg) := by
  constructor
  · intro c n e he
    refine ⟨?_, by decide, by decide, by decide, by decide⟩
    simp [Node.Health, he, aggregatedStatus, aggregatedStatusAux]
  · intro c qf hf dcs ns h1 h2 msg
    simp only [loadEnvironments, h1, h2]
    cases ha : attachNodes c hf (seedEnvs dcs) ns <;> simp [ha]

/-- Claim C7 witness: with every health query failing, node `A` reports the
empty aggregated status. -/
theorem nodeHealth_failure_recovered_witness : Node.Health nA clientHFail = "" :=
  (nodeHealth_failure_recovered.1 clientHFail nA "down" rfl).1

/-- Claim C8: every network, read, or decode failure while fetching the
detailed check report yields an absent result (`none`), never a propagated
error; and a node that passed the health gate still appears, unchanged, in the
environment of its datacenter — the load does not consult the check endpoint
at all, so an unreachable endpoint cannot make it fail. -/
theorem nodeChecks_failure_absent :
    (∀ (w : HttpWorld) (dec : String → Option Controls) (n : Node),
        w.get (checkURL n) = none → n.Checks w dec = none) ∧
    (∀ (w : HttpWorld) (dec : String → Option Controls) (n : Node) (resp : HttpResp),
        w.get (checkURL n) = some resp → resp.Body = none → n.Checks w dec = none) ∧
    (∀ (w : HttpWorld) (dec : String → Option Controls) (n : Node) (resp : HttpResp)
        (body : String),
        w.get (checkURL n) = some resp → resp.Body = some body → dec body = none →
        n.Checks w dec = none) ∧
    (∀ (c : ConsulClient) (qf : String) (hf : List String) (dcs : List String)
        (ns : List Node) (envs : EnvironmentList) (n : Node),
        c.datacenters = .ok dcs → c.catalogNodes qf = .ok ns →
        loadEnvironments c qf hf = .ok envs → n ∈ ns → healthGate c hf n = true →
        ∃ e, lookupEnv envs n.Datacenter = some e ∧ n ∈ e.Nodes) := by
  refine ⟨?_, ?_, ?_, ?_⟩
  · intro w dec n hget
    simp [Node.Checks, hget]
  · intro w dec n resp hget hbody
    simp [Node.Checks, hget, hbody]
  · intro w dec n resp body hget hbody hdec
    simp [Node.Checks, hget, hbody, hdec]
  · intro c qf hf dcs ns envs n h1 h2 h3 hmem hgate
    have hatt := loadEnvironments_ok_attach c qf hf dcs ns envs h1 h2 h3
    have hsome : (attachNodes c hf (seedEnvs dcs) ns).isSome = true := by
      rw [hatt]; rfl
    have hdc := (attachNodes_isSome c hf ns (seedEnvs dcs)).mp hsome n hmem hgate
    rw [lookupEnv_seedEnvs] at hdc
    by_cases hm : n.Datacenter ∈ dcs
    · have hl := loadEnvironments_ok_lookup c qf hf dcs ns envs h1 h2 h3 n.Datacenter
      rw [if_pos hm] at hl
      refine ⟨_, hl, ?_⟩
      refine List.mem_filter.mpr ⟨hmem, ?_⟩
      simp [hgate]
    · rw [if_neg hm] at hdc
      simp at hdc

/-- Claim C8 witness: with the whole network down, node `A`'s check report is
absent. -/
theorem nodeChecks_failure_absent_witness :
    Node.Checks nA wNone (fun _ => none) = none :=
  nodeChecks_failure_absent.1 wNone (fun _ => none) nA rfl

/-- Claim C9: the tag-filtered metadata view contains exactly the pairs of the
node's metadata whose key begins with `"trento-"` — same values, no other
keys — so it never exposes a key outside the reserved namespace; as a total
Lean function it is pure, performs no I/O and has no failure mode. -/
theorem trentoMeta_exact_filter (n : Node) (kv : String × String) :
    kv ∈ n.TrentoMeta ↔ kv ∈ n.Meta ∧ hasPrefixGo kv.1 "trento-" = true := by
  simp [Node.TrentoMeta, List.mem_filter, TRENTO_PREFIX]

/-- Claim C9 witness: instantiation at node `A` and its reserved tag. -/
theorem trentoMeta_exact_filter_witness :
    ("trento-env", "demo") ∈ nA.TrentoMeta ↔
      ("trento-env", "demo") ∈ nA.Meta ∧
        hasPrefixGo ("trento-env", "demo").1 "trento-" = true :=
  trentoMeta_exact_filter nA ("trento-env", "demo")

/-- Claim C3 (failing input): with the `sap-environments` vocabulary key
absent from the KV store and no transport error (`Get` returns a nil pair and
a nil error), the vocabulary load does **not** fail: `errors.Wrap(nil, msg)`
is nil, so `loadFilter` returns no error and `loadFilters` succeeds, mapping
`sap-environments` to a nil list — contradicting the all-or-nothing claim. -/
theorem loadFilters_absent_key_not_fatal :
    loadFilters clientKVAbsent unmarshalDemo =
      .ok [("sap-environments", none), ("sap-landscapes", some []),
           ("sap-systems", some [])] := by
  decide

/-- Claim C4 (failing input): for the reserved tag `trento-env` with the
non-empty value list `["a", "a"]`, the Go loop's separator test
`values[len(values)-1] != value` also suppresses the separator after the
*first* occurrence of `"a"` (it equals the last element), so the two equality
clauses are concatenated with no `" or "` between them. -/
theorem createFilterMetaQuery_duplicate_value_drops_separator :
    CreateFilterMetaQuery [("trento-env", ["a", "a"])] =
      "Meta[\"trento-env\"] == \"a\"Meta[\"trento-env\"] == \"a\"" ∧
    CreateFilterMetaQuery [("trento-env", ["a", "a"])] ≠
      "Meta[\"trento-env\"] == \"a\" or Meta[\"trento-env\"] == \"a\"" := by
  constructor
  · decide
  · decide

/-- Claim C10 counterexample: a returned node whose datacenter `dc2` is absent
from the enumerated list `["dc1"]` does **not** always crash the load — with
health filter `["passing"]` the node fails the health gate (its aggregated
status is `""`), is skipped before the map dereference, and the load returns a
normal result. -/
theorem loadEnvironments_missing_datacenter_cx :
    clientBadDC.datacenters = .ok ["dc1"] ∧
    clientBadDC.catalogNodes "q" = .ok [nC2] ∧
    (nC2 ∈ [nC2] ∧ nC2.Datacenter ∉ ["dc1"]) ∧
    loadEnvironments clientBadDC "q" ["passing"] = .ok [("dc1", ⟨"dc1", []⟩)] := by
  refine ⟨rfl, rfl, ⟨by decide, by decide⟩, by decide⟩

/-- Claim C10 (amended): under the precondition that every returned node
reports a datacenter among the enumerated ones, the load never dereferences a
missing Environment entry (it cannot panic); without the precondition, a node
that *passes the health gate* and whose datacenter is absent from the
enumerated list causes the load to crash (nil `*Environment` dereference)
rather than returning an error or creating the missing environment, while a
node excluded by the health gate is skipped before the dereference. -/
theorem loadEnvironments_missing_datacenter (c : ConsulClient) (qf : String)
    (hf : List String) (dcs : List String) (ns : List Node)
    (h1 : c.datacenters = .ok dcs) (h2 : c.catalogNodes qf = .ok ns) :
    ((∀ n ∈ ns, n.Datacenter ∈ dcs) → loadEnvironments c qf hf ≠ .panic) ∧
    ((∃ n ∈ ns, healthGate c hf n = true ∧ n.Datacenter ∉ dcs) →
      loadEnvironments c qf hf = .panic) := by
  constructor
  · intro hpre
    have hsome : (attachNodes c hf (seedEnvs dcs) ns).isSome = true := by
      apply (attachNodes_isSome c hf ns (seedEnvs dcs)).mpr
      intro n hn hg
      rw [lookupEnv_seedEnvs, if_pos (hpre n hn)]
      rfl
    simp only [loadEnvironments, h1, h2]
    cases ha : attachNodes c hf (seedEnvs dcs) ns with
    | none =>
        rw [ha] at hsome
        simp at hsome
    | some envs2 => simp
  · intro hex
    obtain ⟨n, hn, hg, hdc⟩ := hex
    have hnone : attachNodes c hf (seedEnvs dcs) ns = none := by
      cases ha : attachNodes c hf (seedEnvs dcs) ns with
      | none => rfl
      | some envs2 =>
          have hsome : (attachNodes c hf (seedEnvs dcs) ns).isSome = true := by
            rw [ha]; rfl
          have hlk := (attachNodes_isSome c hf ns (seedEnvs dcs)).mp hsome n hn hg
          rw [lookupEnv_seedEnvs, if_neg hdc] at hlk
          simp at hlk
    simp [loadEnvironments, h1, h2, hnone]

/-- Claim C10 witness: with no health filter, the gate passes unconditionally
and the `dc2` node crashes the load against the `["dc1"]`-only backend. -/
theorem loadEnvironments_missing_datacenter_witness :
    loadEnvironments clientBadDC "q" [] = .panic :=
  (loadEnvironments_missing_datacenter clientBadDC "q" [] ["dc1"] [nC2] rfl rfl).2
    ⟨nC2, by decide, by decide, by decide⟩

end Trento
